import Mathlib

/-!
Verification development for the speed-enforcement coordination service
(problem6 binary of the protohackers repository).

The wire format, the per-connection state machine, the heartbeat
scheduling arithmetic and the outbound writer loop are embedded from
src/src/bin/problem6.rs.  Bytes are modelled as natural numbers below 256,
byte streams as lists; the async readers of the source become pure
functions from a byte list to an optional value paired with the
remaining bytes ("none" models a read error: EOF mid-frame or an
unexpected tag).  Machine integers are modelled as Nat with explicit
reduction modulo 2 ^ w at the points where the source performs
fixed-width arithmetic or fixed-width writes.
-/

/-! ## Byte-stream readers (tokio AsyncReadExt on a BufReader) -/

/-- Model of reader.read_u8(): one byte or failure at EOF. -/
def readU8 : List Nat → Option (Nat × List Nat)
  | [] => none
  | b :: rest => some (b, rest)

/-- Model of reader.read_u16(): two bytes, big-endian, or failure. -/
def readU16 : List Nat → Option (Nat × List Nat)
  | b0 :: b1 :: rest => some (b0 * 256 + b1, rest)
  | _ => none

/-- Model of reader.read_u32(): four bytes, big-endian, or failure. -/
def readU32 : List Nat → Option (Nat × List Nat)
  | b0 :: b1 :: b2 :: b3 :: rest =>
      some (((b0 * 256 + b1) * 256 + b2) * 256 + b3, rest)
  | _ => none

/-- Model of reader.read_exact(buf) for a buffer of length n. -/
def readExact (n : Nat) (l : List Nat) : Option (List Nat × List Nat) :=
  if n ≤ l.length then some (l.take n, l.drop n) else none

/-- Model of the for-loop in the 0x81 arm: numroads successive read_u16 calls. -/
def readU16s : Nat → List Nat → Option (List Nat × List Nat)
  | 0, l => some ([], l)
  | n + 1, l =>
    match readU16 l with
    | none => none
    | some (r, l1) =>
      match readU16s n l1 with
      | none => none
      | some (rs, l2) => some (r :: rs, l2)

/-! ## Big-endian byte encodings (tokio AsyncWriteExt write_u16 / write_u32) -/

/-- Big-endian bytes of a u16 write; the value is truncated mod 2 ^ 16 as by the
fixed-width register write. -/
def be16 (n : Nat) : List Nat := [n / 256 % 256, n % 256]

/-- Big-endian bytes of a u32 write, truncated mod 2 ^ 32. -/
def be32 (n : Nat) : List Nat :=
  [n / 16777216 % 256, n / 65536 % 256, n / 256 % 256, n % 256]

/-! ## UTF-8 (Rust String::from_utf8_lossy and str validity)

The 0x20 (Plate) decode arm calls String::from_utf8_lossy on the raw plate
bytes.  We model the WHATWG decoding Rust implements: a maximal invalid
subpart is replaced by one U+FFFD replacement character and decoding
resumes at the offending byte. -/

/-- Continuation byte test: 0x80 to 0xBF. -/
def utf8Cont (b : Nat) : Bool := 128 ≤ b && b ≤ 191

/-- Admissible second byte of a three-byte sequence headed by b
(0xE0 excludes overlong forms, 0xED excludes surrogates). -/
def utf8Cont3 (b c1 : Nat) : Bool :=
  if b = 224 then 160 ≤ c1 && c1 ≤ 191
  else if b = 237 then 128 ≤ c1 && c1 ≤ 159
  else utf8Cont c1

/-- Admissible second byte of a four-byte sequence headed by b
(0xF0 excludes overlong forms, 0xF4 caps at U+10FFFF). -/
def utf8Cont4 (b c1 : Nat) : Bool :=
  if b = 240 then 144 ≤ c1 && c1 ≤ 191
  else if b = 244 then 128 ≤ c1 && c1 ≤ 143
  else utf8Cont c1

/-- Lossy UTF-8 decoding to a list of unicode code points; each maximal
invalid subpart contributes one 0xFFFD. -/
def utf8Decode : List Nat → List Nat
  | [] => []
  | b :: rest =>
    if b < 128 then b :: utf8Decode rest
    else if 194 ≤ b && b ≤ 223 then
      match rest with
      | [] => [65533]
      | c1 :: rest1 =>
        if utf8Cont c1 then ((b - 192) * 64 + (c1 - 128)) :: utf8Decode rest1
        else 65533 :: utf8Decode (c1 :: rest1)
    else if 224 ≤ b && b ≤ 239 then
      match rest with
      | [] => [65533]
      | c1 :: rest1 =>
        if utf8Cont3 b c1 then
          match rest1 with
          | [] => [65533]
          | c2 :: rest2 =>
            if utf8Cont c2 then
              ((b - 224) * 4096 + (c1 - 128) * 64 + (c2 - 128)) :: utf8Decode rest2
            else 65533 :: utf8Decode (c2 :: rest2)
        else 65533 :: utf8Decode (c1 :: rest1)
    else if 240 ≤ b && b ≤ 244 then
      match rest with
      | [] => [65533]
      | c1 :: rest1 =>
        if utf8Cont4 b c1 then
          match rest1 with
          | [] => [65533]
          | c2 :: rest2 =>
            if utf8Cont c2 then
              match rest2 with
              | [] => [65533]
              | c3 :: rest3 =>
                if utf8Cont c3 then
                  ((b - 240) * 262144 + (c1 - 128) * 4096 + (c2 - 128) * 64 + (c3 - 128))
                    :: utf8Decode rest3
                else 65533 :: utf8Decode (c3 :: rest3)
            else 65533 :: utf8Decode (c2 :: rest2)
        else 65533 :: utf8Decode (c1 :: rest1)
    else 65533 :: utf8Decode rest

/-- Validity of a byte list as UTF-8 (Rust str::from_utf8 succeeding),
with the same case structure as utf8Decode. -/
def utf8Valid : List Nat → Bool
  | [] => true
  | b :: rest =>
    if b < 128 then utf8Valid rest
    else if 194 ≤ b && b ≤ 223 then
      match rest with
      | [] => false
      | c1 :: rest1 => utf8Cont c1 && utf8Valid rest1
    else if 224 ≤ b && b ≤ 239 then
      match rest with
      | [] => false
      | c1 :: rest1 =>
        utf8Cont3 b c1 &&
          (match rest1 with
           | [] => false
           | c2 :: rest2 => utf8Cont c2 && utf8Valid rest2)
    else if 240 ≤ b && b ≤ 244 then
      match rest with
      | [] => false
      | c1 :: rest1 =>
        utf8Cont4 b c1 &&
          (match rest1 with
           | [] => false
           | c2 :: rest2 =>
             utf8Cont c2 &&
               (match rest2 with
                | [] => false
                | c3 :: rest3 => utf8Cont c3 && utf8Valid rest3))
    else false

/-- Encoding of one unicode scalar value to UTF-8 bytes. -/
def utf8EncodeCp (c : Nat) : List Nat :=
  if c < 128 then [c]
  else if c < 2048 then [192 + c / 64, 128 + c % 64]
  else if c < 65536 then [224 + c / 4096, 128 + c / 64 % 64, 128 + c % 64]
  else [240 + c / 262144, 128 + c / 4096 % 64, 128 + c / 64 % 64, 128 + c % 64]

/-- UTF-8 bytes of a Lean string; models bytes of a Rust String, whose
len() is the length of this list. -/
def stringBytes (s : String) : List Nat :=
  (s.data.map Char.toNat).flatMap utf8EncodeCp

/-- Model of String::from_utf8_lossy(bytes).to_string(). -/
def fromUtf8Lossy (bs : List Nat) : String :=
  String.mk ((utf8Decode bs).map Char.ofNat)

/-! ## Message types (mod types of problem6.rs) -/

/-- Plate report payload (struct Plate). -/
structure Plate where
  plate : String
  timestamp : Nat
deriving DecidableEq, Repr

/-- Heartbeat request payload (struct WantHeartbeat).  The source's own doc
comment: an interval of 0 deciseconds means the client does not want to
receive heartbeats (this is the default setting). -/
structure WantHeartbeat where
  interval : Nat
deriving DecidableEq, Repr

/-- Camera identification payload (struct IAmCamera). -/
structure IAmCamera where
  road : Nat
  mile : Nat
  limit : Nat
deriving DecidableEq, Repr

/-- Dispatcher identification payload (struct IAmDispatcher). -/
structure IAmDispatcher where
  numroads : Nat
  roads : List Nat
deriving DecidableEq, Repr

/-- Ticket payload (struct Ticket); speed is in hundredths of a mile per
hour, per the source's doc comment. -/
structure Ticket where
  plate : String
  road : Nat
  mile1 : Nat
  timestamp1 : Nat
  mile2 : Nat
  timestamp2 : Nat
  speed : Nat
deriving DecidableEq, Repr

/-- Error payload (struct Error). -/
structure ErrorMsg where
  msg : String
deriving DecidableEq, Repr

/-- Error::with_msg. -/
def ErrorMsg.with_msg (s : String) : ErrorMsg := ⟨s⟩

/-- enum ClientMessage. -/
inductive ClientMessage where
  | Plate (p : Plate)
  | WantHeartbeat (h : WantHeartbeat)
  | IAmCamera (c : IAmCamera)
  | IAmDispatcher (d : IAmDispatcher)
deriving DecidableEq, Repr

/-- enum ServerMessage. -/
inductive ServerMessage where
  | Error (e : ErrorMsg)
  | Ticket (t : Ticket)
  | Heartbeat
deriving DecidableEq, Repr

/-- enum ClientState. -/
inductive ClientState where
  | Camera (state : IAmCamera)
  | Dispatcher (state : IAmDispatcher)
  | Connecting
deriving DecidableEq, Repr

/-! ## Frame decoding (ClientMessage::from_bytes) -/

/-- Model of ClientMessage::from_bytes: reads the type byte, then the
fields of the corresponding message, in source order; any read failure or
an unexpected type byte yields none (the anyhow error path). -/
def ClientMessage.from_bytes (l : List Nat) : Option (ClientMessage × List Nat) :=
  match readU8 l with
  | none => none
  | some (ty, l0) =>
    if ty = 32 then
      match readU8 l0 with
      | none => none
      | some (plate_len, l1) =>
        match readExact plate_len l1 with
        | none => none
        | some (plate, l2) =>
          match readU32 l2 with
          | none => none
          | some (timestamp, l3) =>
            some (.Plate ⟨fromUtf8Lossy plate, timestamp⟩, l3)
    else if ty = 64 then
      match readU32 l0 with
      | none => none
      | some (interval, l1) => some (.WantHeartbeat ⟨interval⟩, l1)
    else if ty = 128 then
      match readU16 l0 with
      | none => none
      | some (road, l1) =>
        match readU16 l1 with
        | none => none
        | some (mile, l2) =>
          match readU16 l2 with
          | none => none
          | some (limit, l3) => some (.IAmCamera ⟨road, mile, limit⟩, l3)
    else if ty = 129 then
      match readU8 l0 with
      | none => none
      | some (numroads, l1) =>
        match readU16s numroads l1 with
        | none => none
        | some (roads, l2) => some (.IAmDispatcher ⟨numroads, roads⟩, l2)
    else none

/-! ## Frame encoding (ServerMessage::to_bytes) -/

/-- Model of ServerMessage::to_bytes: the bytes pushed to the socket, or
none on the length-guard bail paths (msg or plate longer than 255 bytes). -/
def ServerMessage.to_bytes : ServerMessage → Option (List Nat)
  | .Error e =>
    if (stringBytes e.msg).length > 255 then none
    else some (16 :: (stringBytes e.msg).length :: stringBytes e.msg)
  | .Ticket t =>
    if (stringBytes t.plate).length > 255 then none
    else some (33 :: (stringBytes t.plate).length :: stringBytes t.plate
      ++ be16 t.road ++ be16 t.mile1 ++ be32 t.timestamp1
      ++ be16 t.mile2 ++ be32 t.timestamp2 ++ be16 t.speed)
  | .Heartbeat => some [65]

/-- Modelled from the spec: the repository has no encoder for client
messages (the server only decodes them), so the byte layout of a
client-to-server frame is taken from the section 6 framing table:
one type tag byte, big-endian integers, u8 length prefixes. -/
def ClientMessage.encode : ClientMessage → List Nat
  | .Plate p => 32 :: (stringBytes p.plate).length :: stringBytes p.plate
      ++ be32 p.timestamp
  | .WantHeartbeat h => 64 :: be32 h.interval
  | .IAmCamera c => 128 :: be16 c.road ++ be16 c.mile ++ be16 c.limit
  | .IAmDispatcher d => 129 :: d.numroads :: d.roads.flatMap be16

/-! ## Reader length facts (used for termination of the session loop) -/

theorem readU8_eq_some {l : List Nat} {b : Nat} {r : List Nat}
    (h : readU8 l = some (b, r)) : l = b :: r := by
  cases l with
  | nil => simp [readU8] at h
  | cons x xs =>
    simp only [readU8, Option.some.injEq, Prod.mk.injEq] at h
    simp [h.1, h.2]

theorem readU16_len {l : List Nat} {v : Nat} {r : List Nat}
    (h : readU16 l = some (v, r)) : l.length = r.length + 2 := by
  unfold readU16 at h
  split at h
  · simp only [Option.some.injEq, Prod.mk.injEq] at h
    simp [← h.2]
  · exact absurd h (by simp)

theorem readU32_len {l : List Nat} {v : Nat} {r : List Nat}
    (h : readU32 l = some (v, r)) : l.length = r.length + 4 := by
  unfold readU32 at h
  split at h
  · simp only [Option.some.injEq, Prod.mk.injEq] at h
    simp [← h.2]
  · exact absurd h (by simp)

theorem readExact_eq_some {n : Nat} {l bs r : List Nat}
    (h : readExact n l = some (bs, r)) :
    bs = l.take n ∧ r = l.drop n ∧ n ≤ l.length := by
  unfold readExact at h
  split at h
  · simp only [Option.some.injEq, Prod.mk.injEq] at h
    exact ⟨h.1.symm, h.2.symm, by assumption⟩
  · exact absurd h (by simp)


theorem readU16s_len {n : Nat} {l rs r : List Nat}
    (h : readU16s n l = some (rs, r)) : r.length ≤ l.length := by
  induction n generalizing l rs r with
  | zero =>
    simp only [readU16s, Option.some.injEq, Prod.mk.injEq] at h
    simp [h.2]
  | succ k ih =>
    unfold readU16s at h
    split at h
    · exact absurd h (by simp)
    rename_i v l1 heq
    split at h
    · exact absurd h (by simp)
    rename_i rs1 l2 heq2
    simp only [Option.some.injEq, Prod.mk.injEq] at h
    obtain ⟨-, hr⟩ := h
    subst hr
    have h1 := readU16_len heq
    have h2 := ih heq2
    omega

theorem from_bytes_rest_lt {l : List Nat} {m : ClientMessage} {rest : List Nat}
    (h : ClientMessage.from_bytes l = some (m, rest)) : rest.length < l.length := by
  unfold ClientMessage.from_bytes at h
  split at h
  · exact absurd h (by simp)
  rename_i ty l0 hu
  have hlen : l.length = l0.length + 1 := by rw [readU8_eq_some hu]; simp
  split at h
  · -- tag 0x20
    split at h
    · exact absurd h (by simp)
    rename_i plen l1 h1
    have e1 : l0.length = l1.length + 1 := by rw [readU8_eq_some h1]; simp
    split at h
    · exact absurd h (by simp)
    rename_i pb l2 h2
    obtain ⟨-, hdrop, -⟩ := readExact_eq_some h2
    have e2 : l2.length ≤ l1.length := by rw [hdrop]; simp
    split at h
    · exact absurd h (by simp)
    rename_i ts l3 h3
    have e3 := readU32_len h3
    simp only [Option.some.injEq, Prod.mk.injEq] at h
    obtain ⟨-, hr⟩ := h
    subst hr
    omega
  split at h
  · -- tag 0x40
    split at h
    · exact absurd h (by simp)
    rename_i iv l1 h1
    have e1 := readU32_len h1
    simp only [Option.some.injEq, Prod.mk.injEq] at h
    obtain ⟨-, hr⟩ := h
    subst hr
    omega
  split at h
  · -- tag 0x80
    split at h
    · exact absurd h (by simp)
    rename_i road l1 h1
    split at h
    · exact absurd h (by simp)
    rename_i mile l2 h2
    split at h
    · exact absurd h (by simp)
    rename_i lim l3 h3
    have e1 := readU16_len h1
    have e2 := readU16_len h2
    have e3 := readU16_len h3
    simp only [Option.some.injEq, Prod.mk.injEq] at h
    obtain ⟨-, hr⟩ := h
    subst hr
    omega
  split at h
  · -- tag 0x81
    split at h
    · exact absurd h (by simp)
    rename_i nr l1 h1
    have e1 : l0.length = l1.length + 1 := by rw [readU8_eq_some h1]; simp
    split at h
    · exact absurd h (by simp)
    rename_i roads l2 h2
    have e2 := readU16s_len h2
    simp only [Option.some.injEq, Prod.mk.injEq] at h
    obtain ⟨-, hr⟩ := h
    subst hr
    omega
  exact absurd h (by simp)

/-! ## Connection session (handle_client of problem6.rs)

The read loop of handle_client decodes one frame, then dispatches on the
message and the current ClientState.  Sending on the mpsc channel tx is
modelled as appending to the output list; "tokio::spawn" of the heartbeat
task is modelled by recording the requested interval; "break" ends the
loop, after which handle_client returns and the connection closes. -/

/-- Per-connection mutable state of the read loop. -/
structure SessionState where
  heartbeat_running : Bool
  client_state : ClientState
deriving DecidableEq, Repr

/-- State at connection accept time. -/
def initialSession : SessionState := ⟨false, ClientState.Connecting⟩

/-- Result of one iteration of the read loop: either the loop continues
with an updated state (possibly spawning a heartbeat task with the
recorded interval), or it breaks after emitting the given messages. -/
inductive StepResult where
  | Continue (st : SessionState) (out : List ServerMessage) (spawn : Option Nat)
  | Break (out : List ServerMessage)
deriving DecidableEq, Repr

/-- One iteration of the match in the read loop of handle_client. -/
def handleClientStep (st : SessionState) : ClientMessage → StepResult
  | .Plate _ =>
    match st.client_state with
    | .Camera _ => .Continue st [] none
    | _ => .Break [.Error (ErrorMsg.with_msg "You are not a camera")]
  | .WantHeartbeat hb =>
    if st.heartbeat_running then
      .Break [.Error (ErrorMsg.with_msg "Cannot request multiple heartbeats")]
    else
      .Continue ⟨true, st.client_state⟩ [] (some hb.interval)
  | .IAmCamera c =>
    match st.client_state with
    | .Camera _ => .Break [.Error (ErrorMsg.with_msg "You are already a camera")]
    | .Dispatcher _ =>
      .Break [.Error (ErrorMsg.with_msg "You are a camera, not a dispatcher")]
    | .Connecting => .Continue ⟨st.heartbeat_running, .Camera c⟩ [] none
  | .IAmDispatcher d =>
    match st.client_state with
    | .Camera _ =>
      .Break [.Error (ErrorMsg.with_msg "You are a dispatcher, not a camera")]
    | .Dispatcher _ => .Break [.Error (ErrorMsg.with_msg "You are already a dispatcher")]
    | .Connecting => .Continue ⟨st.heartbeat_running, .Dispatcher d⟩ [] none

/-- Observable result of running the read loop on an inbound byte stream:
the messages pushed to the outbound queue by the loop itself, the
intervals of the heartbeat tasks it spawned, and whether the loop ended
by a frame decode failure (the question-mark early return, which sends
nothing) rather than by an explicit break. -/
structure SessionRun where
  outputs : List ServerMessage
  spawns : List Nat
  readError : Bool
deriving DecidableEq, Repr

/-- The read loop of handle_client over a byte stream. -/
def handle_client (st : SessionState) (bytes : List Nat) : SessionRun :=
  match hdec : ClientMessage.from_bytes bytes with
  | none => ⟨[], [], true⟩
  | some (m, rest) =>
    match handleClientStep st m with
    | .Break out => ⟨out, [], false⟩
    | .Continue st1 out spawn =>
      let r := handle_client st1 rest
      ⟨out ++ r.outputs, spawn.toList ++ r.spawns, r.readError⟩
termination_by bytes.length
decreasing_by exact from_bytes_rest_lt hdec

/-! ## Heartbeat scheduling (WantHeartbeat arm of handle_client)

The source computes "let duration = hearbeat.interval * 100;" in u32
arithmetic (wrapping modulo 2 ^ 32), converts to u64 milliseconds via
Duration::from_millis, and spawns a loop that first sends a Heartbeat
frame and then sleeps for the duration, forever. -/

/-- Milliseconds of the sleep between heartbeat sends: the u32 product
interval * 100, reduced modulo 2 ^ 32 as by wrapping u32 multiplication,
then widened to u64 (no further reduction). -/
def heartbeatPeriodMs (interval : Nat) : Nat := interval * 100 % 4294967296

/-- Time in milliseconds at which the heartbeat loop performs its k-th
send: the loop sends first and sleeps after, so send k happens after k
sleeps. -/
def heartbeatSendTime (interval k : Nat) : Nat := k * heartbeatPeriodMs interval

/-- The first k sends of the spawned heartbeat loop, each with its send
time in milliseconds since the task was spawned. -/
def heartbeatSends (interval k : Nat) : List (Nat × ServerMessage) :=
  (List.range k).map (fun n => (heartbeatSendTime interval n, ServerMessage.Heartbeat))

/-! ## Outbound writer task (the mpsc-draining spawn in handle_client)

The writer task receives queued ServerMessages one at a time; a
serialization failure is logged and the loop continues with the next
message, so the failed message contributes no bytes. -/

/-- Bytes written to the socket by the writer task for a queue of
outbound messages. -/
def writerLoop : List ServerMessage → List Nat
  | [] => []
  | msg :: rest =>
    match msg.to_bytes with
    | none => writerLoop rest
    | some bs => bs ++ writerLoop rest

/-! ## Road registry and ticket engine

Modelled from the spec: the source's ticket-issuance and road-state logic
is an empty stub (handle_tickets builds a road table and returns, and the
Plate arm of handle_client only logs the sighting), so the definitions in
this section follow sections 4.4 and 4.5 of the specification: sightings
are kept per road ordered by timestamp, a new sighting is paired with
every other sighting of the same plate on the same road, a pair whose
implied speed strictly exceeds the limit yields a candidate ticket with
the earlier sighting first and the speed in hundredths of a mile per
hour, day-level deduplication drops candidates whose endpoints fall on an
already-ticketed calendar day, and a surviving ticket is delivered to a
bound dispatcher or queued when none is bound. -/

/-- Modelled from the spec: one camera observation (section 3), carrying
the reporting camera's mile, timestamp and speed limit. -/
structure Sighting where
  plate : String
  mile : Nat
  timestamp : Nat
  limit : Nat
deriving DecidableEq, Repr

/-- Modelled from the spec: whether two sightings of one plate imply a
speed strictly over the limit; the comparison is exact (cross-multiplied),
with zero tolerance (section 4.5). -/
def pairExceeds (limit : Nat) (a b : Sighting) : Bool :=
  let dt := max a.timestamp b.timestamp - min a.timestamp b.timestamp
  let dist := max a.mile b.mile - min a.mile b.mile
  decide (dist * 3600 > limit * dt)

/-- Modelled from the spec: the ticket for a pair of sightings; the
earlier sighting by timestamp is always mile1/timestamp1, and speed is in
hundredths of a mile per hour (sections 3 and 4.5). -/
def mkTicket (road : Nat) (a b : Sighting) : Ticket :=
  let s1 := if a.timestamp ≤ b.timestamp then a else b
  let s2 := if a.timestamp ≤ b.timestamp then b else a
  let dt := s2.timestamp - s1.timestamp
  let dist := max a.mile b.mile - min a.mile b.mile
  ⟨a.plate, road, s1.mile, s1.timestamp, s2.mile, s2.timestamp, dist * 360000 / dt⟩

/-- Calendar day of a timestamp. -/
def dayOf (t : Nat) : Nat := t / 86400

/-- Modelled from the spec: the per-road coordination state (section 3):
time-ordered sighting history, ticketed calendar days per plate, whether
a dispatcher is currently bound, the pending-ticket queue, and the
tickets already handed to a dispatcher. -/
structure RoadState where
  sightings : List Sighting
  ticketedDays : List (String × Nat)
  hasDispatcher : Bool
  queued : List Ticket
  delivered : List Ticket
deriving DecidableEq, Repr

/-- Insertion of a sighting into a timestamp-ordered history. -/
def insertByTime (s : Sighting) : List Sighting → List Sighting
  | [] => [s]
  | x :: xs => if s.timestamp ≤ x.timestamp then s :: x :: xs else x :: insertByTime s xs

/-- Modelled from the spec: handling of one candidate ticket inside
record_sighting (section 4.4): skip it if either endpoint's calendar day
is already ticketed for the plate, otherwise record both days and either
deliver the ticket to the bound dispatcher or enqueue it. -/
def processCandidate (plate : String) (st : RoadState) (t : Ticket) : RoadState :=
  if (plate, dayOf t.timestamp1) ∈ st.ticketedDays
      ∨ (plate, dayOf t.timestamp2) ∈ st.ticketedDays then st
  else
    let st1 := { st with
      ticketedDays := (plate, dayOf t.timestamp1) :: (plate, dayOf t.timestamp2)
        :: st.ticketedDays }
    if st1.hasDispatcher then { st1 with delivered := st1.delivered ++ [t] }
    else { st1 with queued := st1.queued ++ [t] }

/-- Modelled from the spec: record_sighting (section 4.4): append the new
sighting to the road's history in timestamp order, evaluate it against
every prior sighting of the same plate on this road (last-seen limit for
the road wins, which is the new sighting's limit), and process every
candidate ticket through deduplication and delivery. -/
def recordSighting (road : Nat) (st : RoadState) (s : Sighting) : RoadState :=
  let prior := st.sightings.filter (fun p => decide (p.plate = s.plate))
  let candidates :=
    (prior.filter (fun p => pairExceeds s.limit p s)).map (fun p => mkTicket road p s)
  let st1 := { st with sightings := insertByTime s st.sightings }
  candidates.foldl (processCandidate s.plate) st1

/-! ## Helper lemmas about the session loop and the registry -/

/-! ## Helper lemmas about the session loop and the registry -/

/-- Unfolding equation of the session loop when decoding fails: the loop
ends immediately having sent nothing. -/
theorem handle_client_none {st : SessionState} {bytes : List Nat}
    (h : ClientMessage.from_bytes bytes = none) :
    handle_client st bytes = ⟨[], [], true⟩ := by
  rw [handle_client]
  split
  · rfl
  · rename_i m1 rest1 heq
    rw [h] at heq
    cases heq

/-- Unfolding equation of the session loop when a frame decodes. -/
theorem handle_client_some {st : SessionState} {bytes : List Nat}
    {m : ClientMessage} {rest : List Nat}
    (h : ClientMessage.from_bytes bytes = some (m, rest)) :
    handle_client st bytes =
      match handleClientStep st m with
      | .Break out => ⟨out, [], false⟩
      | .Continue st1 out spawn =>
        ⟨out ++ (handle_client st1 rest).outputs,
         spawn.toList ++ (handle_client st1 rest).spawns,
         (handle_client st1 rest).readError⟩ := by
  rw [handle_client]
  split
  · rename_i heq
    rw [h] at heq
    cases heq
  · rename_i m1 rest1 heq
    rw [h] at heq
    injection heq with heq1
    injection heq1 with hm hr
    subst hm
    subst hr
    rfl

/-- Decoding fails on every tag byte outside the four client tags. -/
theorem from_bytes_unknown_tag {b : Nat} (rest : List Nat)
    (h32 : b ≠ 32) (h64 : b ≠ 64) (h128 : b ≠ 128) (h129 : b ≠ 129) :
    ClientMessage.from_bytes (b :: rest) = none := by
  simp [ClientMessage.from_bytes, readU8, h32, h64, h128, h129]

/-- Membership in delivered and queued tickets is preserved by one
candidate-processing step. -/
theorem processCandidate_mem (plate : String) (st : RoadState) (c t : Ticket)
    (h : t ∈ st.delivered ∨ t ∈ st.queued) :
    t ∈ (processCandidate plate st c).delivered
      ∨ t ∈ (processCandidate plate st c).queued := by
  unfold processCandidate
  split
  · exact h
  dsimp only
  split
  · rcases h with h | h
    · exact Or.inl (List.mem_append_left _ h)
    · exact Or.inr h
  · rcases h with h | h
    · exact Or.inl h
    · exact Or.inr (List.mem_append_left _ h)

/-- Membership in delivered and queued tickets is preserved by folding
candidate processing over a candidate list. -/
theorem foldl_processCandidate_mono (plate : String) (ts : List Ticket)
    (st : RoadState) (t : Ticket)
    (h : t ∈ st.delivered ∨ t ∈ st.queued) :
    t ∈ (ts.foldl (processCandidate plate) st).delivered
      ∨ t ∈ (ts.foldl (processCandidate plate) st).queued := by
  induction ts generalizing st with
  | nil => exact h
  | cons c cs ih =>
    simp only [List.foldl_cons]
    exact ih _ (processCandidate_mem plate st c t h)

/-! ## Claim theorems -/

/-- C2: the claim says a WantHeartbeat with interval 0 creates no timer and
sends zero heartbeat frames.  The code contradicts its own doc comment on
WantHeartbeat: the WantHeartbeat arm of handle_client spawns the heartbeat
task unconditionally, and the spawned loop sends a Heartbeat frame first
and sleeps after, so interval 0 yields a send at time 0 (and then an
unbounded stream with zero sleep).  This theorem evaluates the embedded
code at the failing input: the step spawns a timer with interval 0, and
the first loop iteration already emits one Heartbeat frame. -/
theorem c2_zero_interval_spawns_and_sends :
    handleClientStep initialSession (.WantHeartbeat ⟨0⟩)
      = .Continue ⟨true, ClientState.Connecting⟩ [] (some 0)
    ∧ heartbeatSends 0 1 = [(0, ServerMessage.Heartbeat)]
    ∧ heartbeatSends 0 1 ≠ [] := by
  refine ⟨rfl, rfl, ?_⟩
  simp [heartbeatSends]

/-- C7 counterexample: the period is computed as the u32 product
interval * 100 before widening, so interval 42949673 (about 50 days)
wraps to a 4 millisecond period instead of 4294967300 milliseconds. -/
theorem c7_counterexample :
    heartbeatPeriodMs 42949673 = 4
    ∧ heartbeatPeriodMs 42949673 ≠ 42949673 * 100 := by
  constructor
  · decide
  · decide

/-- C7 amended: for every interval n whose product with 100 fits in a u32
(n up to 42949672), the sleep period is exactly n * 100 milliseconds and
successive heartbeat sends are exactly n * 100 milliseconds apart; beyond
that the u32 multiplication wraps modulo 2 ^ 32. -/
theorem c7_period_exact (n k : Nat) (h : n * 100 < 4294967296) :
    heartbeatPeriodMs n = n * 100
    ∧ heartbeatSendTime n (k + 1) - heartbeatSendTime n k = n * 100 := by
  have hp : heartbeatPeriodMs n = n * 100 := Nat.mod_eq_of_lt h
  refine ⟨hp, ?_⟩
  simp only [heartbeatSendTime, hp, Nat.succ_mul]
  omega

/-- C7 witness: the doc comment's own example, interval 25, gives a period
of 2.5 seconds. -/
theorem c7_period_exact_witness :
    heartbeatPeriodMs 25 = 25 * 100
    ∧ heartbeatSendTime 25 1 - heartbeatSendTime 25 0 = 25 * 100 :=
  c7_period_exact 25 0 (by decide)

/-- C4: on an already-identified connection (either role), a second
IAmCamera and a second IAmDispatcher each make the read loop emit exactly
one Error frame and break, which ends handle_client and closes the
connection. -/
theorem c4_role_fixed (st : SessionState) (c : IAmCamera) (d : IAmDispatcher)
    (h : st.client_state ≠ ClientState.Connecting) :
    (∃ e, handleClientStep st (.IAmCamera c) = .Break [.Error e])
    ∧ (∃ e, handleClientStep st (.IAmDispatcher d) = .Break [.Error e]) := by
  cases hcs : st.client_state with
  | Connecting => exact absurd hcs h
  | Camera c0 =>
    exact ⟨⟨ErrorMsg.with_msg "You are already a camera",
        by simp [handleClientStep, hcs]⟩,
      ⟨ErrorMsg.with_msg "You are a dispatcher, not a camera",
        by simp [handleClientStep, hcs]⟩⟩
  | Dispatcher d0 =>
    exact ⟨⟨ErrorMsg.with_msg "You are a camera, not a dispatcher",
        by simp [handleClientStep, hcs]⟩,
      ⟨ErrorMsg.with_msg "You are already a dispatcher",
        by simp [handleClientStep, hcs]⟩⟩

/-- C4 witness: a connection identified as a camera rejects both second
identification attempts with one Error frame each. -/
theorem c4_role_fixed_witness :
    (∃ e, handleClientStep ⟨false, ClientState.Camera ⟨1, 2, 3⟩⟩ (.IAmCamera ⟨4, 5, 6⟩)
      = .Break [.Error e])
    ∧ (∃ e, handleClientStep ⟨false, ClientState.Camera ⟨1, 2, 3⟩⟩ (.IAmDispatcher ⟨1, [7]⟩)
      = .Break [.Error e]) :=
  c4_role_fixed ⟨false, ClientState.Camera ⟨1, 2, 3⟩⟩ ⟨4, 5, 6⟩ ⟨1, [7]⟩ (by simp)

/-- C5: a Plate message on a connection not in Camera state (still
connecting, or identified as a dispatcher) makes the read loop emit
exactly one Error frame and break, closing the connection. -/
theorem c5_plate_requires_camera (st : SessionState) (p : Plate)
    (h : ∀ c, st.client_state ≠ ClientState.Camera c) :
    handleClientStep st (.Plate p)
      = .Break [.Error (ErrorMsg.with_msg "You are not a camera")] := by
  cases hcs : st.client_state with
  | Camera c => exact absurd hcs (h c)
  | Dispatcher d => simp [handleClientStep, hcs]
  | Connecting => simp [handleClientStep, hcs]

/-- C5 witness: a Plate sent on a fresh, unidentified connection gets the
single Error frame. -/
theorem c5_plate_requires_camera_witness :
    handleClientStep initialSession (.Plate ⟨"UN1X", 123⟩)
      = .Break [.Error (ErrorMsg.with_msg "You are not a camera")] :=
  c5_plate_requires_camera initialSession ⟨"UN1X", 123⟩ (fun c => by simp [initialSession])

/-- C3 counterexample: on tag byte 0x00 the claim requires an Error frame
before closing, but the decode failure propagates out of the read loop
through the question-mark operator: the session ends with a read error
having sent nothing at all. -/
theorem c3_unknown_tag_counterexample :
    handle_client initialSession [0] = ⟨[], [], true⟩
    ∧ (handle_client initialSession [0]).outputs = [] := by
  have h : ClientMessage.from_bytes [0] = none := by decide
  have he : handle_client initialSession [0] = ⟨[], [], true⟩ := handle_client_none h
  exact ⟨he, by rw [he]⟩

/-- C3 amended: receiving a frame whose type tag is not one of 0x20,
0x40, 0x80, 0x81 causes the server to close the connection without
sending any frame: decoding fails, the read loop exits on the error path,
and the outbound queue receives nothing. -/
theorem c3_unknown_tag_closes (st : SessionState) (b : Nat) (rest : List Nat)
    (h32 : b ≠ 32) (h64 : b ≠ 64) (h128 : b ≠ 128) (h129 : b ≠ 129) :
    handle_client st (b :: rest) = ⟨[], [], true⟩ :=
  handle_client_none (from_bytes_unknown_tag rest h32 h64 h128 h129)

/-- C3 witness: tag byte 0x11 closes the connection silently. -/
theorem c3_unknown_tag_closes_witness :
    handle_client initialSession [17, 1, 2] = ⟨[], [], true⟩ :=
  c3_unknown_tag_closes initialSession 17 [1, 2]
    (by decide) (by decide) (by decide) (by decide)

/-- C10: when serializing one outbound message fails (to_bytes bails),
the writer task logs and continues: the failed message contributes no
bytes, every earlier and later queued message is still written, and the
queue processing does not stop. -/
theorem c10_writer_skips_failed (msg : ServerMessage) (pre rest : List ServerMessage)
    (h : msg.to_bytes = none) :
    writerLoop (pre ++ msg :: rest) = writerLoop (pre ++ rest) := by
  induction pre with
  | nil => simp [writerLoop, h]
  | cons x xs ih =>
    simp only [List.cons_append, writerLoop]
    cases hx : x.to_bytes with
    | none => dsimp only; exact ih
    | some bs => exact congrArg (bs ++ ·) ih

set_option maxRecDepth 4096 in
/-- C10 witness: an Error message of 256 bytes fails to serialize and is
dropped, while the heartbeats around it are still written. -/
theorem c10_writer_skips_failed_witness :
    ServerMessage.to_bytes (.Error ⟨String.mk (List.replicate 256 'a')⟩) = none
    ∧ writerLoop ([ServerMessage.Heartbeat]
        ++ ServerMessage.Error ⟨String.mk (List.replicate 256 'a')⟩
          :: [ServerMessage.Heartbeat])
      = writerLoop ([ServerMessage.Heartbeat] ++ [ServerMessage.Heartbeat]) :=
  ⟨by decide, c10_writer_skips_failed _ _ _ (by decide)⟩

/-- C1: under the spec-modelled road registry (the source's ticket logic
is an empty stub), a new sighting is evaluated against every prior
sighting of the same plate on the road; if any prior sighting pairs with
it to imply a speed strictly over the limit and the plate has no
conflicting ticketed day, then a ticket for such an exceeding pair is
produced and is either delivered to the bound dispatcher or queued. -/
theorem c1_exceeding_pair_produces_ticket (road : Nat) (st : RoadState) (s p : Sighting)
    (hp : p ∈ st.sightings) (hpl : p.plate = s.plate)
    (hex : pairExceeds s.limit p s = true)
    (hfresh : ∀ d, (s.plate, d) ∉ st.ticketedDays) :
    ∃ q, q ∈ st.sightings ∧ q.plate = s.plate ∧ pairExceeds s.limit q s = true
      ∧ (mkTicket road q s ∈ (recordSighting road st s).delivered
        ∨ mkTicket road q s ∈ (recordSighting road st s).queued) := by
  have hmemL : p ∈ (st.sightings.filter (fun r => decide (r.plate = s.plate))).filter
      (fun r => pairExceeds s.limit r s) :=
    List.mem_filter.mpr ⟨List.mem_filter.mpr ⟨hp, by simp [hpl]⟩, hex⟩
  cases hE : (st.sightings.filter (fun r => decide (r.plate = s.plate))).filter
      (fun r => pairExceeds s.limit r s) with
  | nil => rw [hE] at hmemL; cases hmemL
  | cons q qs =>
    have hq' : q ∈ (st.sightings.filter (fun r => decide (r.plate = s.plate))).filter
        (fun r => pairExceeds s.limit r s) := by
      rw [hE]; exact List.mem_cons_self q qs
    obtain ⟨hq_pr, hq_ex⟩ := List.mem_filter.mp hq'
    obtain ⟨hq_sight, hq_pl⟩ := List.mem_filter.mp hq_pr
    refine ⟨q, hq_sight, by simpa using hq_pl, hq_ex, ?_⟩
    have hgoal : recordSighting road st s =
        ((q :: qs).map (fun r => mkTicket road r s)).foldl (processCandidate s.plate)
          { st with sightings := insertByTime s st.sightings } := by
      simp only [recordSighting]
      rw [hE]
    rw [hgoal]
    simp only [List.map_cons, List.foldl_cons]
    apply foldl_processCandidate_mono
    have hcond : ¬((s.plate, dayOf (mkTicket road q s).timestamp1) ∈
          ({ st with sightings := insertByTime s st.sightings } : RoadState).ticketedDays
        ∨ (s.plate, dayOf (mkTicket road q s).timestamp2) ∈
          ({ st with sightings := insertByTime s st.sightings } : RoadState).ticketedDays) := by
      rintro (hh | hh) <;> exact hfresh _ hh
    unfold processCandidate
    rw [if_neg hcond]
    dsimp only
    split
    · left
      exact List.mem_append_right _ (by simp)
    · right
      exact List.mem_append_right _ (by simp)

/-- C1 witness: the example of the spec: sightings of plate ABC on road 1
at mile 0, time 0 and mile 100, time 3600 with limit 60 imply exactly
100.00 miles per hour, strictly over 60, and the resulting ticket is
produced (queued, as no dispatcher is bound). -/
theorem c1_exceeding_pair_produces_ticket_witness :
    pairExceeds 60 ⟨"ABC", 0, 0, 60⟩ ⟨"ABC", 100, 3600, 60⟩ = true
    ∧ (mkTicket 1 ⟨"ABC", 0, 0, 60⟩ ⟨"ABC", 100, 3600, 60⟩).speed = 10000
    ∧ ∃ q, q ∈ [(⟨"ABC", 0, 0, 60⟩ : Sighting)]
        ∧ q.plate = (⟨"ABC", 100, 3600, 60⟩ : Sighting).plate
        ∧ pairExceeds (⟨"ABC", 100, 3600, 60⟩ : Sighting).limit q ⟨"ABC", 100, 3600, 60⟩ = true
        ∧ (mkTicket 1 q ⟨"ABC", 100, 3600, 60⟩
            ∈ (recordSighting 1 ⟨[⟨"ABC", 0, 0, 60⟩], [], false, [], []⟩
                ⟨"ABC", 100, 3600, 60⟩).delivered
          ∨ mkTicket 1 q ⟨"ABC", 100, 3600, 60⟩
            ∈ (recordSighting 1 ⟨[⟨"ABC", 0, 0, 60⟩], [], false, [], []⟩
                ⟨"ABC", 100, 3600, 60⟩).queued) :=
  ⟨by decide, by decide,
    c1_exceeding_pair_produces_ticket 1 ⟨[⟨"ABC", 0, 0, 60⟩], [], false, [], []⟩
      ⟨"ABC", 100, 3600, 60⟩ ⟨"ABC", 0, 0, 60⟩ (by simp) (by decide) (by decide)
      (fun d => by simp)⟩

/-! ## Decode characterization lemmas (field order per tag) -/

/-- A big-endian u16 written then read gives the value back. -/
theorem readU16_be16 {v : Nat} (rest : List Nat) (h : v < 65536) :
    readU16 (be16 v ++ rest) = some (v, rest) := by
  simp only [be16, List.cons_append, List.nil_append, readU16, Option.some.injEq,
    Prod.mk.injEq]
  exact ⟨by omega, trivial⟩

/-- A big-endian u32 written then read gives the value back. -/
theorem readU32_be32 {v : Nat} (rest : List Nat) (h : v < 4294967296) :
    readU32 (be32 v ++ rest) = some (v, rest) := by
  simp only [be32, List.cons_append, List.nil_append, readU32, Option.some.injEq,
    Prod.mk.injEq]
  exact ⟨by omega, trivial⟩

/-- Reading exactly the length of a known prefix returns that prefix. -/
theorem readExact_append (xs ys : List Nat) :
    readExact xs.length (xs ++ ys) = some (xs, ys) := by
  simp [readExact, List.take_left, List.drop_left]

/-- Reading back a list of u16 road numbers written big-endian. -/
theorem readU16s_flatMap_be16 (roads rest : List Nat) (h : ∀ r ∈ roads, r < 65536) :
    readU16s roads.length (roads.flatMap be16 ++ rest) = some (roads, rest) := by
  induction roads with
  | nil => simp [readU16s]
  | cons r rs ih =>
    have hr : r < 65536 := h r (List.mem_cons_self r rs)
    have hrs : ∀ x ∈ rs, x < 65536 := fun x hx => h x (List.mem_cons_of_mem r hx)
    have h1 : readU16 (be16 r ++ (rs.flatMap be16 ++ rest))
        = some (r, rs.flatMap be16 ++ rest) := readU16_be16 _ hr
    simp only [List.length_cons, List.flatMap_cons, List.append_assoc, readU16s, h1, ih hrs]

/-- Decoding a 0x20 frame: u8 plate length, that many plate bytes run
through lossy UTF-8 conversion, then a big-endian u32 timestamp. -/
theorem from_bytes_plate (pb : List Nat) (ts : Nat) (rest : List Nat)
    (hts : ts < 4294967296) :
    ClientMessage.from_bytes (32 :: pb.length :: (pb ++ be32 ts ++ rest))
      = some (.Plate ⟨fromUtf8Lossy pb, ts⟩, rest) := by
  have h1 : readExact pb.length (pb ++ (be32 ts ++ rest))
      = some (pb, be32 ts ++ rest) := readExact_append pb _
  have h2 : readU32 (be32 ts ++ rest) = some (ts, rest) := readU32_be32 rest hts
  simp [ClientMessage.from_bytes, readU8, List.append_assoc, h1, h2]

/-- Decoding a 0x40 frame: one big-endian u32 interval. -/
theorem from_bytes_wantheartbeat (iv : Nat) (rest : List Nat)
    (hiv : iv < 4294967296) :
    ClientMessage.from_bytes (64 :: (be32 iv ++ rest))
      = some (.WantHeartbeat ⟨iv⟩, rest) := by
  have h1 : readU32 (be32 iv ++ rest) = some (iv, rest) := readU32_be32 rest hiv
  simp [ClientMessage.from_bytes, readU8, h1]

/-- Decoding a 0x80 frame: big-endian u16 road, mile, limit in that order. -/
theorem from_bytes_iamcamera (road mile lim : Nat) (rest : List Nat)
    (hroad : road < 65536) (hmile : mile < 65536) (hlim : lim < 65536) :
    ClientMessage.from_bytes (128 :: (be16 road ++ be16 mile ++ be16 lim ++ rest))
      = some (.IAmCamera ⟨road, mile, lim⟩, rest) := by
  have h1 : readU16 (be16 road ++ (be16 mile ++ (be16 lim ++ rest)))
      = some (road, be16 mile ++ (be16 lim ++ rest)) := readU16_be16 _ hroad
  have h2 : readU16 (be16 mile ++ (be16 lim ++ rest))
      = some (mile, be16 lim ++ rest) := readU16_be16 _ hmile
  have h3 : readU16 (be16 lim ++ rest) = some (lim, rest) := readU16_be16 _ hlim
  simp [ClientMessage.from_bytes, readU8, List.append_assoc, h1, h2, h3]

/-- Decoding a 0x81 frame: u8 numroads then exactly numroads big-endian
u16 road numbers. -/
theorem from_bytes_iamdispatcher (roads rest : List Nat)
    (h : ∀ r ∈ roads, r < 65536) :
    ClientMessage.from_bytes (129 :: roads.length :: (roads.flatMap be16 ++ rest))
      = some (.IAmDispatcher ⟨roads.length, roads⟩, rest) := by
  have h1 := readU16s_flatMap_be16 roads rest h
  simp [ClientMessage.from_bytes, readU8, h1]

/-! ## UTF-8 branch reduction lemmas -/

theorem utf8Decode_cons_ascii {b : Nat} (rest : List Nat) (h : b < 128) :
    utf8Decode (b :: rest) = b :: utf8Decode rest := by
  rw [utf8Decode.eq_def]
  simp [h]

theorem utf8Decode_cons_two {b c1 : Nat} (rest : List Nat) (h1 : 194 ≤ b) (h2 : b ≤ 223)
    (hc : utf8Cont c1 = true) :
    utf8Decode (b :: c1 :: rest) = ((b - 192) * 64 + (c1 - 128)) :: utf8Decode rest := by
  have hb : ¬ b < 128 := by omega
  rw [utf8Decode.eq_def]
  simp [hb, h1, h2, hc]

theorem utf8Decode_cons_three {b c1 c2 : Nat} (rest : List Nat) (h1 : 224 ≤ b)
    (h2 : b ≤ 239) (hc1 : utf8Cont3 b c1 = true) (hc2 : utf8Cont c2 = true) :
    utf8Decode (b :: c1 :: c2 :: rest)
      = ((b - 224) * 4096 + (c1 - 128) * 64 + (c2 - 128)) :: utf8Decode rest := by
  have hb : ¬ b < 128 := by omega
  have hn2 : ¬ b ≤ 223 := by omega
  rw [utf8Decode.eq_def]
  simp [hb, h1, h2, hc1, hc2, hn2]

theorem utf8Decode_cons_four {b c1 c2 c3 : Nat} (rest : List Nat) (h1 : 240 ≤ b)
    (h2 : b ≤ 244) (hc1 : utf8Cont4 b c1 = true) (hc2 : utf8Cont c2 = true)
    (hc3 : utf8Cont c3 = true) :
    utf8Decode (b :: c1 :: c2 :: c3 :: rest)
      = ((b - 240) * 262144 + (c1 - 128) * 4096 + (c2 - 128) * 64 + (c3 - 128))
          :: utf8Decode rest := by
  have hb : ¬ b < 128 := by omega
  have hn2 : ¬ b ≤ 223 := by omega
  have hn3 : ¬ b ≤ 239 := by omega
  rw [utf8Decode.eq_def]
  simp [hb, hc1, hc2, hc3, hn2, hn3, h1, h2]

theorem utf8Valid_cons_ascii {b : Nat} (rest : List Nat) (h : b < 128) :
    utf8Valid (b :: rest) = utf8Valid rest := by
  rw [utf8Valid.eq_def]
  simp [h]

theorem utf8Valid_cons_two {b c1 : Nat} (rest : List Nat) (h1 : 194 ≤ b) (h2 : b ≤ 223) :
    utf8Valid (b :: c1 :: rest) = (utf8Cont c1 && utf8Valid rest) := by
  have hb : ¬ b < 128 := by omega
  rw [utf8Valid.eq_def]
  simp [hb, h1, h2]

theorem utf8Valid_cons_three {b c1 c2 : Nat} (rest : List Nat) (h1 : 224 ≤ b)
    (h2 : b ≤ 239) :
    utf8Valid (b :: c1 :: c2 :: rest)
      = (utf8Cont3 b c1 && (utf8Cont c2 && utf8Valid rest)) := by
  have hb : ¬ b < 128 := by omega
  have hn2 : ¬ b ≤ 223 := by omega
  rw [utf8Valid.eq_def]
  simp [hb, hn2, h1, h2]

theorem utf8Valid_cons_four {b c1 c2 c3 : Nat} (rest : List Nat) (h1 : 240 ≤ b)
    (h2 : b ≤ 244) :
    utf8Valid (b :: c1 :: c2 :: c3 :: rest)
      = (utf8Cont4 b c1 && (utf8Cont c2 && (utf8Cont c3 && utf8Valid rest))) := by
  have hb : ¬ b < 128 := by omega
  have hn2 : ¬ b ≤ 223 := by omega
  have hn3 : ¬ b ≤ 239 := by omega
  rw [utf8Valid.eq_def]
  simp [hb, hn2, hn3, h1, h2]

/-- Invalid UTF-8 input always yields at least one replacement code point
in the lossy decoding. -/
theorem utf8Decode_replacement (bs : List Nat) (h : utf8Valid bs = false) :
    65533 ∈ utf8Decode bs := by
  induction bs using utf8Decode.induct with
  | case1 => rw [utf8Valid.eq_def] at h; simp at h
  | case2 b rest hlt ih =>
    rw [utf8Valid_cons_ascii rest hlt] at h
    rw [utf8Decode_cons_ascii rest hlt]
    exact List.mem_cons_of_mem _ (ih h)
  | case3 b hb h2 => rw [utf8Decode.eq_def]; simp [hb, h2]
  | case4 b hb h2 b1 rest hc ih =>
    obtain ⟨hA, hB⟩ : 194 ≤ b ∧ b ≤ 223 := by simpa using h2
    rw [utf8Valid_cons_two rest hA hB] at h
    simp only [hc, Bool.true_and] at h
    rw [utf8Decode_cons_two rest hA hB hc]
    exact List.mem_cons_of_mem _ (ih h)
  | case5 b hb h2 b1 rest hnc ih => rw [utf8Decode.eq_def]; simp [hb, h2, hnc]
  | case6 b hb hn2 h3 => rw [utf8Decode.eq_def]; simp [hb, hn2, h3]
  | case7 b hb hn2 h3 b1 hc3 => rw [utf8Decode.eq_def]; simp [hb, hn2, h3, hc3]
  | case8 b hb hn2 h3 b1 hc3 b2 rest hc ih =>
    obtain ⟨hA, hB⟩ : 224 ≤ b ∧ b ≤ 239 := by simpa using h3
    rw [utf8Valid_cons_three rest hA hB] at h
    simp only [hc3, hc, Bool.true_and] at h
    rw [utf8Decode_cons_three rest hA hB hc3 hc]
    exact List.mem_cons_of_mem _ (ih h)
  | case9 b hb hn2 h3 b1 hc3 b2 rest hnc ih =>
    rw [utf8Decode.eq_def]; simp [hb, hn2, h3, hc3, hnc]
  | case10 b hb hn2 h3 b1 rest hnc3 ih =>
    rw [utf8Decode.eq_def]; simp [hb, hn2, h3, hnc3]
  | case11 b hb hn2 hn3 h4 => rw [utf8Decode.eq_def]; simp [hb, hn2, hn3, h4]
  | case12 b hb hn2 hn3 h4 b1 hc4 =>
    rw [utf8Decode.eq_def]; simp [hb, hn2, hn3, h4, hc4]
  | case13 b hb hn2 hn3 h4 b1 hc4 b2 hc =>
    rw [utf8Decode.eq_def]; simp [hb, hn2, hn3, h4, hc4, hc]
  | case14 b hb hn2 hn3 h4 b1 hc4 b2 hc2 b3 rest hc3 ih =>
    obtain ⟨hA, hB⟩ : 240 ≤ b ∧ b ≤ 244 := by simpa using h4
    rw [utf8Valid_cons_four rest hA hB] at h
    simp only [hc4, hc2, hc3, Bool.true_and] at h
    rw [utf8Decode_cons_four rest hA hB hc4 hc2 hc3]
    exact List.mem_cons_of_mem _ (ih h)
  | case15 b hb hn2 hn3 h4 b1 hc4 b2 hc2 b3 rest hnc3 ih =>
    rw [utf8Decode.eq_def]; simp [hb, hn2, hn3, h4, hc4, hc2, hnc3]
  | case16 b hb hn2 hn3 h4 b1 hc4 b2 rest hnc2 ih =>
    rw [utf8Decode.eq_def]; simp [hb, hn2, hn3, h4, hc4, hnc2]
  | case17 b hb hn2 hn3 h4 b1 rest hnc4 ih =>
    rw [utf8Decode.eq_def]; simp [hb, hn2, hn3, h4, hnc4]
  | case18 b rest hb hn2 hn3 hn4 ih =>
    rw [utf8Decode.eq_def]; simp [hb, hn2, hn3, hn4]


/-- C8: the decoder reads big-endian integers in exactly the field order
of the framing table: tag 0x20 reads a u8 plate length, that many plate
bytes and a u32 timestamp; tag 0x40 reads a u32 interval; tag 0x80 reads
u16 road, mile, limit; tag 0x81 reads a u8 numroads and then exactly
numroads u16 road numbers; each returns the corresponding typed message
with the remaining bytes untouched. -/
theorem c8_decoder_field_order :
    (∀ (pb : List Nat) (ts : Nat) (rest : List Nat), pb.length ≤ 255 →
      ts < 4294967296 →
      ClientMessage.from_bytes (32 :: pb.length :: (pb ++ be32 ts ++ rest))
        = some (.Plate ⟨fromUtf8Lossy pb, ts⟩, rest))
    ∧ (∀ (iv : Nat) (rest : List Nat), iv < 4294967296 →
      ClientMessage.from_bytes (64 :: (be32 iv ++ rest))
        = some (.WantHeartbeat ⟨iv⟩, rest))
    ∧ (∀ (road mile lim : Nat) (rest : List Nat), road < 65536 → mile < 65536 →
      lim < 65536 →
      ClientMessage.from_bytes (128 :: (be16 road ++ be16 mile ++ be16 lim ++ rest))
        = some (.IAmCamera ⟨road, mile, lim⟩, rest))
    ∧ (∀ (roads rest : List Nat), roads.length ≤ 255 → (∀ r ∈ roads, r < 65536) →
      ClientMessage.from_bytes (129 :: roads.length :: (roads.flatMap be16 ++ rest))
        = some (.IAmDispatcher ⟨roads.length, roads⟩, rest)) :=
  ⟨fun pb ts rest _ hts => from_bytes_plate pb ts rest hts,
   fun iv rest hiv => from_bytes_wantheartbeat iv rest hiv,
   fun road mile lim rest h1 h2 h3 => from_bytes_iamcamera road mile lim rest h1 h2 h3,
   fun roads rest _ h => from_bytes_iamdispatcher roads rest h⟩

/-- C8 witness: one concrete frame per tag decodes to the expected typed
message. -/
theorem c8_decoder_field_order_witness :
    ClientMessage.from_bytes (32 :: ([65] : List Nat).length :: ([65] ++ be32 7 ++ []))
      = some (.Plate ⟨fromUtf8Lossy [65], 7⟩, [])
    ∧ ClientMessage.from_bytes (64 :: (be32 25 ++ []))
      = some (.WantHeartbeat ⟨25⟩, [])
    ∧ ClientMessage.from_bytes (128 :: (be16 1 ++ be16 2 ++ be16 60 ++ []))
      = some (.IAmCamera ⟨1, 2, 60⟩, [])
    ∧ ClientMessage.from_bytes (129 :: ([3, 9] : List Nat).length
        :: (([3, 9] : List Nat).flatMap be16 ++ []))
      = some (.IAmDispatcher ⟨([3, 9] : List Nat).length, [3, 9]⟩, []) :=
  ⟨c8_decoder_field_order.1 [65] 7 [] (by decide) (by decide),
   c8_decoder_field_order.2.1 25 [] (by decide),
   c8_decoder_field_order.2.2.1 1 2 60 [] (by decide) (by decide) (by decide),
   c8_decoder_field_order.2.2.2 [3, 9] [] (by decide) (by decide)⟩

/-- C9: a Plate frame whose declared plate-length bytes are available
always decodes, whatever the plate bytes are; and when the plate bytes
are not valid UTF-8, the decoded plate string contains the U+FFFD
replacement character instead of the decode failing. -/
theorem c9_plate_bytes_never_fail :
    (∀ (pb : List Nat) (ts : Nat) (rest : List Nat), pb.length ≤ 255 →
      ts < 4294967296 →
      ClientMessage.from_bytes (32 :: pb.length :: (pb ++ be32 ts ++ rest))
        = some (.Plate ⟨fromUtf8Lossy pb, ts⟩, rest))
    ∧ (∀ bs, utf8Valid bs = false → Char.ofNat 65533 ∈ (fromUtf8Lossy bs).data) := by
  refine ⟨fun pb ts rest _ hts => from_bytes_plate pb ts rest hts, fun bs hv => ?_⟩
  exact List.mem_map.mpr ⟨65533, utf8Decode_replacement bs hv, rfl⟩

/-- C9 witness: the single byte 0xFF is not valid UTF-8; the frame still
decodes and the plate string is the replacement character. -/
theorem c9_plate_bytes_never_fail_witness :
    ClientMessage.from_bytes (32 :: ([255] : List Nat).length :: ([255] ++ be32 0 ++ []))
      = some (.Plate ⟨fromUtf8Lossy [255], 0⟩, [])
    ∧ Char.ofNat 65533 ∈ (fromUtf8Lossy [255]).data :=
  ⟨c9_plate_bytes_never_fail.1 [255] 0 [] (by decide) (by decide),
   c9_plate_bytes_never_fail.2 [255] (by decide)⟩

theorem utf8Cont_spec {c : Nat} (h : utf8Cont c = true) : 128 ≤ c ∧ c ≤ 191 := by
  simpa [utf8Cont] using h

theorem utf8Cont3_spec {b c : Nat} (h : utf8Cont3 b c = true) :
    (b = 224 ∧ 160 ≤ c ∧ c ≤ 191) ∨ (b = 237 ∧ 128 ≤ c ∧ c ≤ 159)
      ∨ (b ≠ 224 ∧ b ≠ 237 ∧ 128 ≤ c ∧ c ≤ 191) := by
  unfold utf8Cont3 at h
  split_ifs at h with h1 h2
  · simp at h; omega
  · simp at h; omega
  · have := utf8Cont_spec h; omega

theorem utf8Cont4_spec {b c : Nat} (h : utf8Cont4 b c = true) :
    (b = 240 ∧ 144 ≤ c ∧ c ≤ 191) ∨ (b = 244 ∧ 128 ≤ c ∧ c ≤ 143)
      ∨ (b ≠ 240 ∧ b ≠ 244 ∧ 128 ≤ c ∧ c ≤ 191) := by
  unfold utf8Cont4 at h
  split_ifs at h with h1 h2
  · simp at h; omega
  · simp at h; omega
  · have := utf8Cont_spec h; omega

set_option maxRecDepth 8192 in
theorem utf8_valid_roundtrip (bs : List Nat) (h : utf8Valid bs = true) :
    (utf8Decode bs).flatMap utf8EncodeCp = bs
    ∧ ∀ cp ∈ utf8Decode bs, Nat.isValidChar cp := by
  induction bs using utf8Decode.induct with
  | case1 => simp [utf8Decode]
  | case2 b rest hlt ih =>
    rw [utf8Valid_cons_ascii rest hlt] at h
    obtain ⟨ih1, ih2⟩ := ih h
    rw [utf8Decode_cons_ascii rest hlt]
    refine ⟨?_, ?_⟩
    · have he : utf8EncodeCp b = [b] := by unfold utf8EncodeCp; rw [if_pos hlt]
      simp only [List.flatMap_cons, ih1, he]
      rfl
    · intro cp hcp
      rcases List.mem_cons.mp hcp with rfl | hcp
      · exact Or.inl (by omega)
      · exact ih2 cp hcp
  | case3 b hb h2 => rw [utf8Valid.eq_def] at h; simp [hb, h2] at h
  | case4 b hb h2 b1 rest hc ih =>
    obtain ⟨hA, hB⟩ : 194 ≤ b ∧ b ≤ 223 := by simpa using h2
    obtain ⟨hc1, hc2⟩ := utf8Cont_spec hc
    rw [utf8Valid_cons_two rest hA hB] at h
    simp only [hc, Bool.true_and] at h
    obtain ⟨ih1, ih2⟩ := ih h
    rw [utf8Decode_cons_two rest hA hB hc]
    refine ⟨?_, ?_⟩
    · have he : utf8EncodeCp ((b - 192) * 64 + (b1 - 128)) = [b, b1] := by
        unfold utf8EncodeCp
        rw [if_neg (by omega), if_pos (by omega)]
        simp only [List.cons.injEq, and_true]
        constructor <;> omega
      simp only [List.flatMap_cons, ih1, he]
      rfl
    · intro cp hcp
      rcases List.mem_cons.mp hcp with rfl | hcp
      · exact Or.inl (by omega)
      · exact ih2 cp hcp
  | case5 b hb h2 b1 rest hnc ih =>
    rw [utf8Valid.eq_def] at h
    simp [hb, h2, hnc] at h
  | case6 b hb hn2 h3 => rw [utf8Valid.eq_def] at h; simp [hb, hn2, h3] at h
  | case7 b hb hn2 h3 b1 hc3 =>
    rw [utf8Valid.eq_def] at h
    simp [hb, hn2, h3, hc3] at h
  | case8 b hb hn2 h3 b1 hc3 b2 rest hc ih =>
    obtain ⟨hA, hB⟩ : 224 ≤ b ∧ b ≤ 239 := by simpa using h3
    obtain ⟨hd1, hd2⟩ := utf8Cont_spec hc
    have hb1 : 128 ≤ b1 ∧ b1 ≤ 191 := by
      rcases utf8Cont3_spec hc3 with ⟨_, h1, h2b⟩ | ⟨_, h1, h2b⟩ | ⟨_, _, h1, h2b⟩ <;>
        exact ⟨by omega, by omega⟩
    have hlow : 2048 ≤ (b - 224) * 4096 + (b1 - 128) * 64 + (b2 - 128) := by
      rcases utf8Cont3_spec hc3 with ⟨he, h1, h2b⟩ | ⟨he, h1, h2b⟩ | ⟨hne1, hne2, h1, h2b⟩ <;>
        omega
    rw [utf8Valid_cons_three rest hA hB] at h
    simp only [hc3, hc, Bool.true_and] at h
    obtain ⟨ih1, ih2⟩ := ih h
    rw [utf8Decode_cons_three rest hA hB hc3 hc]
    refine ⟨?_, ?_⟩
    · have he : utf8EncodeCp ((b - 224) * 4096 + (b1 - 128) * 64 + (b2 - 128))
          = [b, b1, b2] := by
        unfold utf8EncodeCp
        rw [if_neg (by omega), if_neg (by omega), if_pos (by omega)]
        simp only [List.cons.injEq, and_true]
        refine ⟨by omega, by omega, by omega⟩
      simp only [List.flatMap_cons, ih1, he]
      rfl
    · intro cp hcp
      rcases List.mem_cons.mp hcp with rfl | hcp
      · rcases utf8Cont3_spec hc3 with ⟨he, h1, h2b⟩ | ⟨he, h1, h2b⟩ | ⟨hne1, hne2, h1, h2b⟩
        · exact Or.inl (by omega)
        · exact Or.inl (by omega)
        · by_cases hble : b ≤ 236
          · exact Or.inl (by omega)
          · exact Or.inr ⟨by omega, by omega⟩
      · exact ih2 cp hcp
  | case9 b hb hn2 h3 b1 hc3 b2 rest hnc ih =>
    rw [utf8Valid.eq_def] at h
    simp [hb, hn2, h3, hc3, hnc] at h
  | case10 b hb hn2 h3 b1 rest hnc3 ih =>
    rw [utf8Valid.eq_def] at h
    simp [hb, hn2, h3, hnc3] at h
  | case11 b hb hn2 hn3 h4 => rw [utf8Valid.eq_def] at h; simp [hb, hn2, hn3, h4] at h
  | case12 b hb hn2 hn3 h4 b1 hc4 =>
    rw [utf8Valid.eq_def] at h
    simp [hb, hn2, hn3, h4, hc4] at h
  | case13 b hb hn2 hn3 h4 b1 hc4 b2 hc =>
    rw [utf8Valid.eq_def] at h
    simp [hb, hn2, hn3, h4, hc4, hc] at h
  | case14 b hb hn2 hn3 h4 b1 hc4 b2 hc2 b3 rest hc3 ih =>
    obtain ⟨hA, hB⟩ : 240 ≤ b ∧ b ≤ 244 := by simpa using h4
    obtain ⟨hd1, hd2⟩ := utf8Cont_spec hc2
    obtain ⟨he1, he2⟩ := utf8Cont_spec hc3
    have hb1 : 128 ≤ b1 ∧ b1 ≤ 191 := by
      rcases utf8Cont4_spec hc4 with ⟨_, h1, h2b⟩ | ⟨_, h1, h2b⟩ | ⟨_, _, h1, h2b⟩ <;>
        exact ⟨by omega, by omega⟩
    have hlow : 65536 ≤ (b - 240) * 262144 + (b1 - 128) * 4096 + (b2 - 128) * 64
        + (b3 - 128) := by
      rcases utf8Cont4_spec hc4 with ⟨he, h1, h2b⟩ | ⟨he, h1, h2b⟩ | ⟨hne1, hne2, h1, h2b⟩ <;>
        omega
    have hhigh : (b - 240) * 262144 + (b1 - 128) * 4096 + (b2 - 128) * 64
        + (b3 - 128) < 1114112 := by
      rcases utf8Cont4_spec hc4 with ⟨he, h1, h2b⟩ | ⟨he, h1, h2b⟩ | ⟨hne1, hne2, h1, h2b⟩ <;>
        omega
    rw [utf8Valid_cons_four rest hA hB] at h
    simp only [hc4, hc2, hc3, Bool.true_and] at h
    obtain ⟨ih1, ih2⟩ := ih h
    rw [utf8Decode_cons_four rest hA hB hc4 hc2 hc3]
    refine ⟨?_, ?_⟩
    · have he : utf8EncodeCp ((b - 240) * 262144 + (b1 - 128) * 4096 + (b2 - 128) * 64
          + (b3 - 128)) = [b, b1, b2, b3] := by
        unfold utf8EncodeCp
        rw [if_neg (by omega), if_neg (by omega), if_neg (by omega)]
        simp only [List.cons.injEq, and_true]
        refine ⟨by omega, by omega, by omega, by omega⟩
      simp only [List.flatMap_cons, ih1, he]
      rfl
    · intro cp hcp
      rcases List.mem_cons.mp hcp with rfl | hcp
      · exact Or.inr ⟨by omega, by omega⟩
      · exact ih2 cp hcp
  | case15 b hb hn2 hn3 h4 b1 hc4 b2 hc2 b3 rest hnc3 ih =>
    rw [utf8Valid.eq_def] at h
    simp [hb, hn2, hn3, h4, hc4, hc2, hnc3] at h
  | case16 b hb hn2 hn3 h4 b1 hc4 b2 rest hnc2 ih =>
    rw [utf8Valid.eq_def] at h
    simp [hb, hn2, hn3, h4, hc4, hnc2] at h
  | case17 b hb hn2 hn3 h4 b1 rest hnc4 ih =>
    rw [utf8Valid.eq_def] at h
    simp [hb, hn2, hn3, h4, hnc4] at h
  | case18 b rest hb hn2 hn3 hn4 ih =>
    rw [utf8Valid.eq_def] at h
    simp [hb, hn2, hn3, hn4] at h

theorem readU8_short {l : List Nat} (h : l.length < 1) : readU8 l = none := by
  cases l with
  | nil => rfl
  | cons x xs => simp at h

theorem readU16_short {l : List Nat} (h : l.length < 2) : readU16 l = none := by
  match l with
  | [] => rfl
  | [b0] => rfl
  | b0 :: b1 :: rest =>
    exfalso
    simp only [List.length_cons] at h
    omega

theorem readU32_short {l : List Nat} (h : l.length < 4) : readU32 l = none := by
  match l with
  | [] => rfl
  | [b0] => rfl
  | [b0, b1] => rfl
  | [b0, b1, b2] => rfl
  | b0 :: b1 :: b2 :: b3 :: rest =>
    exfalso
    simp only [List.length_cons] at h
    omega

theorem readExact_short {n : Nat} {l : List Nat} (h : l.length < n) :
    readExact n l = none := by
  unfold readExact
  rw [if_neg (by omega)]

theorem readU16s_short {n : Nat} {l : List Nat} (h : l.length < 2 * n) :
    readU16s n l = none := by
  induction n generalizing l with
  | zero => omega
  | succ k ih =>
    unfold readU16s
    cases h16 : readU16 l with
    | none => rfl
    | some p =>
      obtain ⟨v, l1⟩ := p
      have hlen := readU16_len h16
      simp only [ih (show l1.length < 2 * k by omega)]

theorem flatMap_be16_length (roads : List Nat) :
    (roads.flatMap be16).length = 2 * roads.length := by
  induction roads with
  | nil => simp
  | cons r rs ih => simp [be16, ih]; omega

theorem readU16_eq_some_inv {l : List Nat} {v : Nat} {r : List Nat}
    (h : readU16 l = some (v, r)) (hb : ∀ b ∈ l, b < 256) :
    l = be16 v ++ r ∧ v < 65536 := by
  unfold readU16 at h
  split at h
  · rename_i b0 b1 rest
    simp only [Option.some.injEq, Prod.mk.injEq] at h
    obtain ⟨hv, hr⟩ := h
    subst hr
    have h0 : b0 < 256 := hb b0 (by simp)
    have h1 : b1 < 256 := hb b1 (by simp)
    subst hv
    refine ⟨?_, by omega⟩
    simp only [be16, List.cons_append, List.nil_append, List.cons.injEq, and_true]
    refine ⟨by omega, by omega⟩
  · exact absurd h (by simp)

theorem readU32_eq_some_inv {l : List Nat} {v : Nat} {r : List Nat}
    (h : readU32 l = some (v, r)) (hb : ∀ b ∈ l, b < 256) :
    l = be32 v ++ r ∧ v < 4294967296 := by
  unfold readU32 at h
  split at h
  · rename_i b0 b1 b2 b3 rest
    simp only [Option.some.injEq, Prod.mk.injEq] at h
    obtain ⟨hv, hr⟩ := h
    subst hr
    have h0 : b0 < 256 := hb b0 (by simp)
    have h1 : b1 < 256 := hb b1 (by simp)
    have h2 : b2 < 256 := hb b2 (by simp)
    have h3 : b3 < 256 := hb b3 (by simp)
    subst hv
    refine ⟨?_, by omega⟩
    simp only [be32, List.cons_append, List.nil_append, List.cons.injEq, and_true]
    refine ⟨by omega, by omega, by omega, by omega⟩
  · exact absurd h (by simp)

theorem readU16s_eq_some_inv {n : Nat} {l roads r : List Nat}
    (h : readU16s n l = some (roads, r)) (hb : ∀ b ∈ l, b < 256) :
    l = roads.flatMap be16 ++ r ∧ roads.length = n ∧ ∀ x ∈ roads, x < 65536 := by
  induction n generalizing l roads r with
  | zero =>
    simp only [readU16s, Option.some.injEq, Prod.mk.injEq] at h
    obtain ⟨h1, h2⟩ := h
    subst h1
    subst h2
    simp
  | succ k ih =>
    unfold readU16s at h
    split at h
    · exact absurd h (by simp)
    rename_i v l1 heq
    split at h
    · exact absurd h (by simp)
    rename_i rs1 l2 heq2
    simp only [Option.some.injEq, Prod.mk.injEq] at h
    obtain ⟨hroads, hr⟩ := h
    subst hr
    obtain ⟨hl1, hv⟩ := readU16_eq_some_inv heq hb
    have hb1 : ∀ b ∈ l1, b < 256 := by
      intro b hmem
      exact hb b (by rw [hl1]; exact List.mem_append_right _ hmem)
    obtain ⟨hl2, hlen, hall⟩ := ih heq2 hb1
    subst hroads
    refine ⟨?_, by simp [hlen], ?_⟩
    · rw [hl1, hl2]
      simp [List.flatMap_cons]
    · intro x hx
      rcases List.mem_cons.mp hx with rfl | hx
      · exact hv
      · exact hall x hx

theorem toNat_ofNat_of_valid {n : Nat} (h : n.isValidChar) : (Char.ofNat n).toNat = n := by
  rw [Char.ofNat, dif_pos h]
  rfl

theorem stringBytes_fromUtf8Lossy (pb : List Nat) (h : utf8Valid pb = true) :
    stringBytes (fromUtf8Lossy pb) = pb := by
  obtain ⟨h1, h2⟩ := utf8_valid_roundtrip pb h
  show (((utf8Decode pb).map Char.ofNat).map Char.toNat).flatMap utf8EncodeCp = pb
  rw [List.map_map]
  have hmap : (utf8Decode pb).map (Char.toNat ∘ Char.ofNat) = utf8Decode pb := by
    have hfix : ∀ cp ∈ utf8Decode pb, (Char.toNat ∘ Char.ofNat) cp = cp :=
      fun cp hcp => toNat_ofNat_of_valid (h2 cp hcp)
    calc (utf8Decode pb).map (Char.toNat ∘ Char.ofNat)
        = (utf8Decode pb).map id := List.map_congr_left hfix
      _ = utf8Decode pb := List.map_id _
  rw [hmap, h1]

/-- Well-formed client messages: field values fit the wire widths of the
section 6 framing table (u8 length prefixes, u16 and u32 integers). -/
def wellFormedClient : ClientMessage → Prop
  | .Plate p => (stringBytes p.plate).length ≤ 255 ∧ p.timestamp < 4294967296
  | .WantHeartbeat hb => hb.interval < 4294967296
  | .IAmCamera c => c.road < 65536 ∧ c.mile < 65536 ∧ c.limit < 65536
  | .IAmDispatcher d =>
      d.numroads = d.roads.length ∧ d.roads.length ≤ 255 ∧ ∀ r ∈ d.roads, r < 65536

/-- The UTF-8 side condition of the amended round-trip statement: for a
Plate frame the length-prefixed plate bytes are valid UTF-8 (lossy
decoding is the identity there); any other frame has no string payload. -/
def frameStringsValid : List Nat → Bool
  | 32 :: plen :: rest => utf8Valid (rest.take plen)
  | _ => true

theorem from_bytes_tag32 (l0 : List Nat) :
    ClientMessage.from_bytes (32 :: l0)
      = (match readU8 l0 with
         | none => none
         | some (plen, l1) =>
           match readExact plen l1 with
           | none => none
           | some (pb, l2) =>
             match readU32 l2 with
             | none => none
             | some (ts, l3) => some (.Plate ⟨fromUtf8Lossy pb, ts⟩, l3)) := rfl

theorem from_bytes_tag64 (l0 : List Nat) :
    ClientMessage.from_bytes (64 :: l0)
      = (match readU32 l0 with
         | none => none
         | some (iv, l1) => some (.WantHeartbeat ⟨iv⟩, l1)) := rfl

theorem from_bytes_tag128 (l0 : List Nat) :
    ClientMessage.from_bytes (128 :: l0)
      = (match readU16 l0 with
         | none => none
         | some (road, l1) =>
           match readU16 l1 with
           | none => none
           | some (mile, l2) =>
             match readU16 l2 with
             | none => none
             | some (lim, l3) => some (.IAmCamera ⟨road, mile, lim⟩, l3)) := rfl

theorem from_bytes_tag129 (l0 : List Nat) :
    ClientMessage.from_bytes (129 :: l0)
      = (match readU8 l0 with
         | none => none
         | some (nr, l1) =>
           match readU16s nr l1 with
           | none => none
           | some (roads, l2) => some (.IAmDispatcher ⟨nr, roads⟩, l2)) := rfl

/-- Decoding success inverts encoding: a decoded frame re-encodes to the
original bytes, provided the input is made of bytes and any plate payload
is valid UTF-8 (otherwise the lossy conversion is not injective). -/
theorem from_bytes_reencode {bs : List Nat} {m : ClientMessage} {rest : List Nat}
    (hb : ∀ b ∈ bs, b < 256) (hs : frameStringsValid bs = true)
    (h : ClientMessage.from_bytes bs = some (m, rest)) :
    ClientMessage.encode m ++ rest = bs := by
  unfold ClientMessage.from_bytes at h
  split at h
  · exact absurd h (by simp)
  rename_i ty l0 hu
  have hbs : bs = ty :: l0 := readU8_eq_some hu
  subst hbs
  split at h
  · -- tag 0x20
    rename_i hty
    subst hty
    split at h
    · exact absurd h (by simp)
    rename_i plen l1 h1
    have hl0 : l0 = plen :: l1 := readU8_eq_some h1
    subst hl0
    split at h
    · exact absurd h (by simp)
    rename_i pb l2 h2
    obtain ⟨hpb, hdrop, hle⟩ := readExact_eq_some h2
    split at h
    · exact absurd h (by simp)
    rename_i ts l3 h3
    have hbl2 : ∀ b ∈ l2, b < 256 := by
      intro b hmem
      apply hb b
      rw [hdrop] at hmem
      exact List.mem_cons_of_mem _ (List.mem_cons_of_mem _ (List.mem_of_mem_drop hmem))
    obtain ⟨hl2eq, hts⟩ := readU32_eq_some_inv h3 hbl2
    simp only [Option.some.injEq, Prod.mk.injEq] at h
    obtain ⟨hm, hrest⟩ := h
    subst hm
    subst hrest
    have hvalid : utf8Valid pb = true := by
      rw [hpb]
      simpa [frameStringsValid] using hs
    show 32 :: (stringBytes (fromUtf8Lossy pb)).length
        :: stringBytes (fromUtf8Lossy pb) ++ be32 ts ++ l3 = 32 :: plen :: l1
    rw [stringBytes_fromUtf8Lossy pb hvalid]
    have hplen : pb.length = plen := by
      rw [hpb, List.length_take]
      omega
    have hl1 : l1 = pb ++ l2 := by
      rw [hpb, hdrop, List.take_append_drop]
    rw [hl1, hl2eq, hplen]
    simp
  split at h
  · -- tag 0x40
    rename_i hty
    subst hty
    split at h
    · exact absurd h (by simp)
    rename_i iv l1 h1
    have hbl0 : ∀ b ∈ l0, b < 256 := fun b hmem => hb b (List.mem_cons_of_mem _ hmem)
    obtain ⟨hl0eq, hiv⟩ := readU32_eq_some_inv h1 hbl0
    simp only [Option.some.injEq, Prod.mk.injEq] at h
    obtain ⟨hm, hrest⟩ := h
    subst hm
    subst hrest
    show 64 :: be32 iv ++ l1 = 64 :: l0
    rw [hl0eq]
    simp
  split at h
  · -- tag 0x80
    rename_i hty
    subst hty
    split at h
    · exact absurd h (by simp)
    rename_i road l1 h1
    split at h
    · exact absurd h (by simp)
    rename_i mile l2 h2
    split at h
    · exact absurd h (by simp)
    rename_i lim l3 h3
    have hbl0 : ∀ b ∈ l0, b < 256 := fun b hmem => hb b (List.mem_cons_of_mem _ hmem)
    obtain ⟨hl0eq, hroad⟩ := readU16_eq_some_inv h1 hbl0
    have hbl1 : ∀ b ∈ l1, b < 256 := by
      intro b hmem
      exact hbl0 b (by rw [hl0eq]; exact List.mem_append_right _ hmem)
    obtain ⟨hl1eq, hmile⟩ := readU16_eq_some_inv h2 hbl1
    have hbl2 : ∀ b ∈ l2, b < 256 := by
      intro b hmem
      exact hbl1 b (by rw [hl1eq]; exact List.mem_append_right _ hmem)
    obtain ⟨hl2eq, hlim⟩ := readU16_eq_some_inv h3 hbl2
    simp only [Option.some.injEq, Prod.mk.injEq] at h
    obtain ⟨hm, hrest⟩ := h
    subst hm
    subst hrest
    show 128 :: be16 road ++ be16 mile ++ be16 lim ++ l3 = 128 :: l0
    rw [hl0eq, hl1eq, hl2eq]
    simp
  split at h
  · -- tag 0x81
    rename_i hty
    subst hty
    split at h
    · exact absurd h (by simp)
    rename_i nr l1 h1
    have hl0 : l0 = nr :: l1 := readU8_eq_some h1
    subst hl0
    split at h
    · exact absurd h (by simp)
    rename_i roads l2 h2
    have hbl1 : ∀ b ∈ l1, b < 256 := by
      intro b hmem
      exact hb b (List.mem_cons_of_mem _ (List.mem_cons_of_mem _ hmem))
    obtain ⟨hl1eq, hlen, hall⟩ := readU16s_eq_some_inv h2 hbl1
    simp only [Option.some.injEq, Prod.mk.injEq] at h
    obtain ⟨hm, hrest⟩ := h
    subst hm
    subst hrest
    show 129 :: nr :: roads.flatMap be16 ++ l2 = 129 :: nr :: l1
    rw [hl1eq]
    simp
  exact absurd h (by simp)

/-- Truncating a well-formed encoded frame anywhere before its end makes
decoding fail: some reader hits end-of-stream. -/
theorem from_bytes_truncated (m : ClientMessage) (k : Nat)
    (hwf : wellFormedClient m) (hk : k < (ClientMessage.encode m).length) :
    ClientMessage.from_bytes ((ClientMessage.encode m).take k) = none := by
  cases m with
  | Plate p =>
    obtain ⟨hlen, hts⟩ := hwf
    simp only [ClientMessage.encode, List.cons_append, List.length_cons,
      List.length_append, be32, List.length_nil] at hk
    match k with
    | 0 => rfl
    | 1 => rfl
    | j + 2 =>
      simp only [ClientMessage.encode, List.cons_append, List.take_succ_cons]
      rw [from_bytes_tag32]
      simp only [readU8]
      by_cases hj : j < (stringBytes p.plate).length
      · rw [readExact_short (by simp [List.length_take]; omega)]
      · push_neg at hj
        have e1 : List.take j (stringBytes p.plate ++ be32 p.timestamp)
            = stringBytes p.plate
              ++ List.take (j - (stringBytes p.plate).length) (be32 p.timestamp) := by
          rw [List.take_append_eq_append_take, List.take_of_length_le hj]
        have e2 : readU32 (List.take (j - (stringBytes p.plate).length)
            (be32 p.timestamp)) = none :=
          readU32_short (by simp [List.length_take, be32]; omega)
        simp only [e1, readExact_append, e2]
  | WantHeartbeat hb =>
    simp only [ClientMessage.encode, List.length_cons, be32, List.length_nil] at hk
    match k with
    | 0 => rfl
    | j + 1 =>
      simp only [ClientMessage.encode, List.take_succ_cons]
      rw [from_bytes_tag64]
      rw [readU32_short (by simp [List.length_take, be32]; omega)]
  | IAmCamera c =>
    obtain ⟨hroad, hmile, hlim⟩ := hwf
    simp only [ClientMessage.encode, List.cons_append, List.length_cons,
      List.length_append, be16, List.length_nil] at hk
    match k with
    | 0 => rfl
    | j + 1 =>
      simp only [ClientMessage.encode, List.cons_append, List.take_succ_cons]
      rw [from_bytes_tag128]
      by_cases h2 : j < 2
      · rw [readU16_short
          (by simp [List.length_take, be16, List.length_append]; omega)]
      · push_neg at h2
        have h2' : (be16 c.road).length ≤ j := by simp [be16]; omega
        have e1 : List.take j (be16 c.road ++ (be16 c.mile ++ be16 c.limit))
            = be16 c.road ++ List.take (j - 2) (be16 c.mile ++ be16 c.limit) := by
          rw [List.take_append_eq_append_take, List.take_of_length_le h2']
          simp [be16]
        by_cases h4 : j - 2 < 2
        · have e2 : readU16 (List.take (j - 2) (be16 c.mile ++ be16 c.limit)) = none :=
            readU16_short (by simp [List.length_take, be16, List.length_append]; omega)
          simp only [List.append_assoc, e1, readU16_be16 _ hroad, e2]
        · push_neg at h4
          have h4' : (be16 c.mile).length ≤ j - 2 := by simp [be16]; omega
          have e2 : List.take (j - 2) (be16 c.mile ++ be16 c.limit)
              = be16 c.mile ++ List.take (j - 4) (be16 c.limit) := by
            rw [List.take_append_eq_append_take, List.take_of_length_le h4']
            simp [be16]
            omega
          have e3 : readU16 (List.take (j - 4) (be16 c.limit)) = none :=
            readU16_short (by simp [List.length_take, be16]; omega)
          simp only [List.append_assoc, e1, e2, readU16_be16 _ hroad,
            readU16_be16 _ hmile, e3]
  | IAmDispatcher d =>
    obtain ⟨hnr, hdlen, hall⟩ := hwf
    simp only [ClientMessage.encode, List.length_cons] at hk
    rw [flatMap_be16_length] at hk
    match k with
    | 0 => rfl
    | 1 => rfl
    | j + 2 =>
      simp only [ClientMessage.encode, List.take_succ_cons]
      rw [from_bytes_tag129]
      simp only [readU8]
      rw [readU16s_short (by rw [List.length_take, flatMap_be16_length]; omega)]

/-- C6 counterexample: the byte sequence [0x20, 1, 0xFF, 0,0,0,0] is a
well-formed Plate frame (known tag, complete fields), yet decoding and
re-encoding does not return it: 0xFF is not valid UTF-8, the lossy
conversion turns it into U+FFFD, and re-encoding yields the three-byte
UTF-8 form of U+FFFD instead of the original single byte. -/
theorem c6_lossy_plate_counterexample :
    ClientMessage.from_bytes [32, 1, 255, 0, 0, 0, 0]
      = some (.Plate ⟨fromUtf8Lossy [255], 0⟩, [])
    ∧ ClientMessage.encode (.Plate ⟨fromUtf8Lossy [255], 0⟩) ≠ [32, 1, 255, 0, 0, 0, 0]
    ∧ ClientMessage.encode (.Plate ⟨fromUtf8Lossy [255], 0⟩)
      = [32, 3, 239, 191, 189, 0, 0, 0, 0] := by
  refine ⟨by decide, by decide, by decide⟩

/-- C6 amended: decode-encode is the identity on every frame whose bytes
are in range and whose plate payload (if any) is valid UTF-8; an unknown
tag byte or the empty stream fails to decode; and every proper prefix of
a well-formed encoded frame fails to decode (truncated fields), the
decoder returning none with no partial result in all failure cases. -/
theorem c6_codec_roundtrip :
    (∀ (bs : List Nat) (m : ClientMessage) (rest : List Nat),
        (∀ b ∈ bs, b < 256) → frameStringsValid bs = true →
        ClientMessage.from_bytes bs = some (m, rest) →
        ClientMessage.encode m ++ rest = bs)
    ∧ (∀ (b : Nat) (rest : List Nat), b ≠ 32 → b ≠ 64 → b ≠ 128 → b ≠ 129 →
        ClientMessage.from_bytes (b :: rest) = none)
    ∧ ClientMessage.from_bytes [] = none
    ∧ (∀ (m : ClientMessage) (k : Nat), wellFormedClient m →
        k < (ClientMessage.encode m).length →
        ClientMessage.from_bytes ((ClientMessage.encode m).take k) = none) :=
  ⟨fun _ _ _ hb hs h => from_bytes_reencode hb hs h,
   fun _ rest h32 h64 h128 h129 => from_bytes_unknown_tag rest h32 h64 h128 h129,
   rfl,
   fun m k hwf hk => from_bytes_truncated m k hwf hk⟩

/-- C6 witness: a concrete ASCII Plate frame round-trips byte for byte;
tag 0 fails; the empty stream fails; a 3-byte prefix of an IAmCamera
frame fails. -/
theorem c6_codec_roundtrip_witness :
    ClientMessage.encode (.Plate ⟨fromUtf8Lossy [65], 7⟩) ++ []
      = [32, 1, 65, 0, 0, 0, 7]
    ∧ ClientMessage.from_bytes (0 :: [1, 2]) = none
    ∧ ClientMessage.from_bytes [] = none
    ∧ ClientMessage.from_bytes ((ClientMessage.encode (.IAmCamera ⟨1, 2, 3⟩)).take 3)
      = none :=
  ⟨c6_codec_roundtrip.1 [32, 1, 65, 0, 0, 0, 7] (.Plate ⟨fromUtf8Lossy [65], 7⟩) []
      (by decide) (by decide) (by decide),
   c6_codec_roundtrip.2.1 0 [1, 2] (by decide) (by decide) (by decide) (by decide),
   c6_codec_roundtrip.2.2.1,
   c6_codec_roundtrip.2.2.2 (.IAmCamera ⟨1, 2, 3⟩) 3
     (show (1 : Nat) < 65536 ∧ (2 : Nat) < 65536 ∧ (3 : Nat) < 65536 by decide)
     (by decide)⟩
